import Mathlib

/-!
Shallow embedding of the x-media-downloader repository
(`src/database.py` and `src/app.py`): the SQLite-backed tag store and
processed-image hash index, the per-URL download task with content-hash
deduplication, the autotagger invoker with its confidence threshold, the
shared pagination arithmetic, and the bulk re-tagging job loop.

SQLite tables are modelled as Lean lists: `image_tags` (with its
`UNIQUE(filepath, tag)` constraint realised by insert-or-ignore) as a
`List TagRow` in insertion order, `processed_images` as a `List String`
of hashes.  Confidence is `Option ℚ` because the `confidence` column is
nullable and `tag_info.get("confidence")` may yield `None`.
-/

/-- One row of the `image_tags` table (`database.py`, `init_db`). -/
structure TagRow where
  filepath : String
  tag : String
  confidence : Option ℚ
deriving DecidableEq, Repr

/-- The two tables created by `init_db`. -/
structure Db where
  image_tags : List TagRow
  processed_images : List String
deriving DecidableEq, Repr

/-- `init_db`: both tables start empty. -/
def init_db : Db := ⟨[], []⟩

/-- `INSERT OR IGNORE INTO image_tags ... UNIQUE(filepath, tag)`:
the row is appended unless a row with the same `(filepath, tag)` pair
already exists, in which case the statement is a no-op. -/
def insertOrIgnoreTag (rows : List TagRow) (fp tg : String) (conf : Option ℚ) :
    List TagRow :=
  if rows.any (fun r => r.filepath == fp && r.tag == tg) then rows
  else rows ++ [⟨fp, tg, conf⟩]

/-- One element of the `tags` argument of `add_tags_for_file`: a dict from
which the code reads keys `"tag"` and `"confidence"` with `.get`, either of
which may be absent or `None`. -/
structure TagInfo where
  tag : Option String
  confidence : Option ℚ
deriving DecidableEq, Repr

/-- `database.add_tags_for_file(filepath, tags)`: for each entry, read the
tag name; `if tag:` skips entries whose tag is `None`/missing or the empty
string; otherwise `INSERT OR IGNORE` the row. -/
def add_tags_for_file (filepath : String) (tags : List TagInfo)
    (rows : List TagRow) : List TagRow :=
  tags.foldl (fun acc ti =>
    match ti.tag with
    | some t => if t ≠ "" then insertOrIgnoreTag acc filepath t ti.confidence else acc
    | none => acc) rows

/-- `database.mark_image_as_processed(image_hash)`:
`INSERT OR IGNORE` into `processed_images` (hash is the primary key). -/
def mark_image_as_processed (image_hash : String) (processed : List String) :
    List String :=
  if processed.contains image_hash then processed else processed ++ [image_hash]

/-- `database.is_image_processed(image_hash)`: membership test on the
`processed_images` table. -/
def is_image_processed (image_hash : String) (processed : List String) : Bool :=
  processed.contains image_hash

/-- The possible outcomes of the external tagger call inside
`autotag_file` (`app.py` lines 85-110), as seen by the code:
the feature can be disabled (no endpoint configured), the HTTP call or
file read can raise (both caught), the JSON can fail the
`isinstance(tag_data, list) and tag_data` shape check, or it yields a
tag-to-confidence mapping. -/
inductive TagResp where
  | disabled
  | transportError (msg : String)
  | malformed
  | ok (raw_tags : List (String × ℚ))
deriving DecidableEq, Repr

/-- The filtering loop of `autotag_file`: keep exactly the tags whose
confidence is strictly greater than `0.4`, packaged as the dicts passed to
`database.add_tags_for_file`. -/
def tags_to_add (raw_tags : List (String × ℚ)) : List TagInfo :=
  (raw_tags.filter (fun tc => (0.4 : ℚ) < tc.2)).map
    (fun tc => TagInfo.mk (some tc.1) (some tc.2))

/-- `autotag_file(filepath, relative_path, image_hash)`: a no-op when the
tagger is disabled, the request fails, or the response is malformed; when a
tag mapping comes back, tags above the threshold are written through
`add_tags_for_file` (`if tags_to_add:` guards the call, and writing an
empty batch is itself a no-op).  All exceptions are caught inside, so the
function always returns normally. -/
def autotag_file (relative_path : String) (resp : TagResp)
    (rows : List TagRow) : List TagRow :=
  match resp with
  | .disabled => rows
  | .transportError _ => rows
  | .malformed => rows
  | .ok raw_tags =>
      let toAdd := tags_to_add raw_tags
      if toAdd ≠ [] then add_tags_for_file relative_path toAdd rows else rows

/-- The `UNIQUE(filepath, tag)` schema invariant: no two rows of
`image_tags` share the `(filepath, tag)` pair. -/
def UniqueRows (rows : List TagRow) : Prop :=
  rows.Pairwise (fun a b => ¬(a.filepath = b.filepath ∧ a.tag = b.tag))

/-- Number of rows recorded for one `(filepath, tag)` pair. -/
def countPair (rows : List TagRow) (fp tg : String) : Nat :=
  (rows.filter (fun r => r.filepath == fp && r.tag == tg)).length

/-! ## Ingestion worker (`app.py`: `download_image_task`, `download_all_images`)

Paths are modelled relative to `UPLOAD_FOLDER`: `tweet_dir` is
`{username}/{tweet_id}` and the code's `os.path.relpath(filepath,
UPLOAD_FOLDER)` is then `filepath` itself.  Image bytes are `List Nat`;
the MD5 digest is an arbitrary function parameter `md5` (the proofs use
only that it is a function of the bytes, which gives determinism). -/

/-- Result of the per-URL HTTP fetch: either an exception / non-2xx status
(caught by the task's `except` clause) or the body bytes together with the
`content-type` response header. -/
inductive Fetch where
  | failure (reason : String)
  | success (content : List Nat) (content_type : String)
deriving DecidableEq, Repr

/-- Python's `pat in s` substring test on strings. -/
def strContains (s pat : String) : Bool :=
  decide (pat.toList <:+: s.toList)

/-- Extension selection from the `content-type` header: default `.jpg`,
with `png`/`webp`/`gif` recognised by substring match. -/
def ext_for (content_type : String) : String :=
  if strContains content_type "png" then ".png"
  else if strContains content_type "webp" then ".webp"
  else if strContains content_type "gif" then ".gif"
  else ".jpg"

/-- Python's `f"{index:02d}"`: decimal rendering zero-padded to a minimum
width of two characters. -/
def pad2 (n : Nat) : String :=
  if n < 10 then "0" ++ toString n else toString n

/-- The status dict returned by `download_image_task`. -/
inductive Outcome where
  | success (path : String)
  | skipped (reason : String)
  | failed (reason : String)
deriving DecidableEq, Repr

def Outcome.isSuccess : Outcome → Bool
  | .success _ => true
  | _ => false

def Outcome.isSkipped : Outcome → Bool
  | .skipped _ => true
  | _ => false

def Outcome.isFailed : Outcome → Bool
  | .failed _ => true
  | _ => false

/-- Mutable world state seen by the ingestion worker: the database plus the
filesystem under `UPLOAD_FOLDER` (a map from relative path to byte
content). -/
structure St where
  db : Db
  files : List (String × List Nat)
deriving DecidableEq, Repr

/-- `open(filepath, 'wb')` + `write`: create or overwrite. -/
def writeFile (files : List (String × List Nat)) (path : String)
    (content : List Nat) : List (String × List Nat) :=
  if files.any (·.1 == path) then
    files.map (fun pc => if pc.1 == path then (path, content) else pc)
  else files ++ [(path, content)]

/-- `os.remove(filepath)`. -/
def removeFile (files : List (String × List Nat)) (path : String) :
    List (String × List Nat) :=
  files.filter (fun pc => pc.1 != path)

/-- `download_image_task(image_url, tweet_dir, index, tweet_id)` (`app.py`
lines 112-148), one sequentially executed task.  `fetch` is the outcome of
the `requests.get` for this URL and `resp` the outcome of the tagger call
made for it when it is saved.  Steps in source order: fetch; hash; skip if
the hash is already in `processed_images`; pick extension; build
`{tweet_id}_{index:02d}{ext}`; write the file; if non-empty, mark the hash
processed and autotag (tagging never changes the outcome); if empty,
remove the file and fail. -/
def download_image_task (md5 : List Nat → String) (fetch : Fetch)
    (resp : TagResp) (tweet_dir : String) (index : Nat) (tweet_id : String)
    (st : St) : St × Outcome :=
  match fetch with
  | .failure reason => (st, .failed reason)
  | .success image_content content_type =>
    let image_hash := md5 image_content
    if is_image_processed image_hash st.db.processed_images then
      (st, .skipped "Duplicate image (already processed)")
    else
      let ext := ext_for content_type
      let filename := tweet_id ++ "_" ++ pad2 index ++ ext
      let filepath := tweet_dir ++ "/" ++ filename
      let files1 := writeFile st.files filepath image_content
      if image_content.length > 0 then
        let processed1 := mark_image_as_processed image_hash st.db.processed_images
        let relative_path := filepath
        let tags1 := autotag_file relative_path resp st.db.image_tags
        (⟨⟨tags1, processed1⟩, files1⟩, .success relative_path)
      else
        (⟨st.db, removeFile files1 filepath⟩, .failed "Empty file")

/-- The task loop of `download_all_images`: tasks are submitted with
1-based indices in input order (`enumerate(image_urls, 1)`) and their
results collected in input order (`[task.result() for task in tasks]`);
this is the sequential interleaving of the pool's execution. -/
def runDownloads (md5 : List Nat → String) (inputs : List (Fetch × TagResp))
    (tweet_dir tweet_id : String) (i : Nat) (st : St) : St × List Outcome :=
  match inputs with
  | [] => (st, [])
  | x :: xs =>
      let sr := download_image_task md5 x.1 x.2 tweet_dir i tweet_id st
      let rest := runDownloads md5 xs tweet_dir tweet_id (i + 1) sr.1
      (rest.1, sr.2 :: rest.2)

/-- The aggregate dict built by `download_all_images` for a non-empty URL
list. -/
structure BatchResult where
  success : Bool
  downloaded_count : Nat
  skipped_count : Nat
  files : List Outcome
  skipped : List Outcome
  errors : List Outcome
deriving DecidableEq, Repr

/-- `download_all_images(image_urls, tweet_url, username)` (`app.py` lines
150-171): `none` models the early `{"success": False, "message": "No
images found"}` return for an empty URL list; otherwise the per-URL
results are partitioned by status and aggregated, with
`success = len(successes) > 0`. -/
def download_all_images (md5 : List Nat → String)
    (inputs : List (Fetch × TagResp)) (tweet_id username : String) (st : St) :
    St × Option BatchResult :=
  if inputs.isEmpty then (st, none)
  else
    let tweet_dir := username ++ "/" ++ tweet_id
    let out := runDownloads md5 inputs tweet_dir tweet_id 1 st
    let successes := out.2.filter Outcome.isSuccess
    let skipped := out.2.filter Outcome.isSkipped
    let failures := out.2.filter Outcome.isFailed
    (out.1, some ⟨decide (successes.length > 0), successes.length,
      skipped.length, successes, skipped, failures⟩)

/-! ## Pagination (`app.py`: shared by `list_users`, `list_user_tweets`,
`get_images`, `get_all_tags_api`) -/

/-- `total_pages = (total_items + per_page - 1) // per_page if total_items > 0
else 0` — the formula every paginated endpoint uses. -/
def total_pages (total_items per_page : Nat) : Nat :=
  if total_items > 0 then (total_items + per_page - 1) / per_page else 0

/-- `items[offset : offset + per_page]` with `offset = (page - 1) * per_page`
— the slice every paginated endpoint takes (stable sort modes). -/
def pageItems {α : Type} (l : List α) (page per_page : Nat) : List α :=
  (l.drop ((page - 1) * per_page)).take per_page

/-! ## Tag store query layer (`database.py`: `get_tags_for_files`,
`find_files_by_tags`) -/

/-- SQLite comparison underlying `ORDER BY confidence DESC` on a nullable
`REAL` column: `NULL` sorts below every value, so `optConfLe a b` says
`a` is at most `b` in that order. -/
def optConfLe : Option ℚ → Option ℚ → Bool
  | none, _ => true
  | some _, none => false
  | some a, some b => decide (a ≤ b)

/-- Row order produced by `ORDER BY confidence DESC`: a row comes before
another when its confidence is at least the other's. -/
def confDescBefore (a b : TagRow) : Bool :=
  optConfLe b.confidence a.confidence

/-- The rows returned by `SELECT filepath, tag, confidence FROM image_tags
WHERE filepath IN (...) ORDER BY confidence DESC`. -/
def sortedTagRows (rows : List TagRow) (filepaths : List String) :
    List TagRow :=
  (rows.filter (fun r => filepaths.contains r.filepath)).mergeSort confDescBefore

/-- `tags_map = {path: [] for path in filepaths}`: an insertion-ordered
dict with one empty-list entry per distinct requested path. -/
def emptyTagsMap (filepaths : List String) :
    List (String × List (String × Option ℚ)) :=
  filepaths.foldl (fun m p => if m.any (·.1 == p) then m else m ++ [(p, [])]) []

/-- `tags_map[row['filepath']].append({...})` for one fetched row. -/
def appendRowToMap (m : List (String × List (String × Option ℚ)))
    (r : TagRow) : List (String × List (String × Option ℚ)) :=
  m.map (fun kv =>
    if kv.1 == r.filepath then (kv.1, kv.2 ++ [(r.tag, r.confidence)]) else kv)

/-- `database.get_tags_for_files(filepaths)` (`database.py` lines 73-97):
empty dict for an empty request; otherwise a dict keyed by every requested
path, filled by appending the confidence-descending rows in order. -/
def get_tags_for_files (filepaths : List String) (rows : List TagRow) :
    List (String × List (String × Option ℚ)) :=
  if filepaths.isEmpty then []
  else (sortedTagRows rows filepaths).foldl appendRowToMap (emptyTagsMap filepaths)

/-- `SELECT filepath FROM image_tags WHERE tag = ?` (bag semantics; the
`UNIQUE(filepath, tag)` constraint makes the result duplicate-free on a
well-formed table). -/
def selectFilepathsByTag (rows : List TagRow) (t : String) : List String :=
  (rows.filter (fun r => r.tag == t)).map (·.filepath)

/-- SQL `INTERSECT`: the distinct values present in both operands. -/
def sqlIntersect (a b : List String) : List String :=
  (a.filter (fun x => b.contains x)).dedup

/-- `database.find_files_by_tags(tags)` (`database.py` lines 113-131):
empty list for no tags; otherwise the left-associated `INTERSECT` chain of
one single-tag `SELECT` per requested tag. -/
def find_files_by_tags (rows : List TagRow) (tags : List String) :
    List String :=
  match tags with
  | [] => []
  | t :: ts =>
      ts.foldl (fun acc t2 => sqlIntersect acc (selectFilepathsByTag rows t2))
        (selectFilepathsByTag rows t)

/-! ## Bulk tagging jobs (`app.py`: `_autotag_all_task`,
`_autotag_untagged_task`)

Both tasks share one inner loop (`app.py` lines 401-417 and 456-472): the
local `autotag_and_mark` runs `autotag_file` then
`mark_image_as_processed` inside a `try`, returning `True` unless one of
those raises — and `autotag_file` catches all its own exceptions, so in
the embedding the unit is total.  The completion loop counts `True`
results. -/

/-- One unit of bulk work: a file on disk with its relative path, content
hash, and the tagger's response for it. -/
structure FileUnit where
  relative_path : String
  image_hash : String
  resp : TagResp
deriving DecidableEq, Repr

/-- The local `autotag_and_mark` of both bulk tasks. -/
def autotag_and_mark (u : FileUnit) (db : Db) : Db × Bool :=
  let tags1 := autotag_file u.relative_path u.resp db.image_tags
  let processed1 := mark_image_as_processed u.image_hash db.processed_images
  (⟨tags1, processed1⟩, true)

/-- The fan-out-and-count loop shared by both bulk tasks: run every unit,
incrementing `processed_count` for each unit that reports success. -/
def run_autotag_job (files : List FileUnit) (db : Db) : Db × Nat :=
  files.foldl (fun acc u =>
    let r := autotag_and_mark u acc.1
    (r.1, acc.2 + if r.2 then 1 else 0)) (db, 0)

/-- `database.get_all_image_filepaths_from_db`: the distinct filepaths
appearing in `image_tags`. -/
def get_all_image_filepaths_from_db (rows : List TagRow) : List String :=
  (rows.map (·.filepath)).dedup

/-- `_autotag_all_task`: clear both tables, then run the shared loop over
every eligible file on disk. -/
def autotag_all_task (allFiles : List FileUnit) (_db : Db) : Db × Nat :=
  run_autotag_job allFiles ⟨[], []⟩

/-- `_autotag_untagged_task`: run the shared loop over the eligible files
whose relative path is not already a key of `image_tags`. -/
def autotag_untagged_task (diskFiles : List FileUnit) (db : Db) : Db × Nat :=
  run_autotag_job
    (diskFiles.filter (fun u =>
      !((get_all_image_filepaths_from_db db.image_tags).contains u.relative_path)))
    db

/-! ## Helper lemmas: tag store -/

/-- The pair-presence test used by `INSERT OR IGNORE`. -/
def pairPresent (rows : List TagRow) (fp tg : String) : Bool :=
  rows.any (fun r => r.filepath == fp && r.tag == tg)

theorem insertOrIgnoreTag_of_present {rows : List TagRow} {fp tg : String}
    (c : Option ℚ) (h : pairPresent rows fp tg = true) :
    insertOrIgnoreTag rows fp tg c = rows := by
  simp only [insertOrIgnoreTag, pairPresent] at *
  simp [h]

theorem pairPresent_insertOrIgnoreTag (rows : List TagRow) (fp tg : String)
    (c : Option ℚ) : pairPresent (insertOrIgnoreTag rows fp tg c) fp tg = true := by
  by_cases h : pairPresent rows fp tg = true
  · rw [insertOrIgnoreTag_of_present c h]; exact h
  · simp only [insertOrIgnoreTag, pairPresent] at *
    simp [h]

theorem pairPresent_append (rows l : List TagRow) (fp tg : String)
    (h : pairPresent rows fp tg = true) :
    pairPresent (rows ++ l) fp tg = true := by
  simp only [pairPresent, List.any_append] at *
  simp [h]

theorem pairPresent_insertOrIgnoreTag_mono (rows : List TagRow)
    (fp tg fp' tg' : String) (c : Option ℚ)
    (h : pairPresent rows fp tg = true) :
    pairPresent (insertOrIgnoreTag rows fp' tg' c) fp tg = true := by
  unfold insertOrIgnoreTag
  split
  · exact h
  · exact pairPresent_append rows _ fp tg h

theorem pairPresent_add_tags_mono (tags : List TagInfo) (rows : List TagRow)
    (filepath fp tg : String) (h : pairPresent rows fp tg = true) :
    pairPresent (add_tags_for_file filepath tags rows) fp tg = true := by
  induction tags generalizing rows with
  | nil => exact h
  | cons ti ts ih =>
      simp only [add_tags_for_file, List.foldl_cons] at *
      match hti : ti.tag with
      | none => exact ih rows h
      | some t =>
          by_cases ht : t = ""
          · simp only [ht, ne_eq, not_true_eq_false, if_false]
            exact ih rows h
          · simp only [ht, ne_eq, not_false_iff, if_true]
            exact ih _ (pairPresent_insertOrIgnoreTag_mono rows fp tg filepath t _ h)

/-- A single-entry `add_tags_for_file` with a valid tag is one
insert-or-ignore. -/
theorem add_tags_single (filepath t : String) (c : Option ℚ)
    (rows : List TagRow) (ht : t ≠ "") :
    add_tags_for_file filepath [⟨some t, c⟩] rows =
      insertOrIgnoreTag rows filepath t c := by
  simp [add_tags_for_file, ht]

theorem countPair_le_one {rows : List TagRow} (hU : UniqueRows rows)
    (fp tg : String) : countPair rows fp tg ≤ 1 := by
  unfold countPair
  have hP := hU.filter (fun r => r.filepath == fp && r.tag == tg)
  set L := rows.filter (fun r => r.filepath == fp && r.tag == tg) with hL
  match hF : L with
  | [] => simp
  | [_] => simp
  | a :: b :: l =>
      exfalso
      have hab := (List.pairwise_cons.1 hP).1 b (by simp)
      have haL : a ∈ rows.filter (fun r => r.filepath == fp && r.tag == tg) := by
        rw [← hL]
        simp
      have hbL : b ∈ rows.filter (fun r => r.filepath == fp && r.tag == tg) := by
        rw [← hL]
        simp
      have ha' := List.of_mem_filter haL
      have hb' := List.of_mem_filter hbL
      simp only [Bool.and_eq_true, beq_iff_eq] at ha' hb'
      exact hab ⟨ha'.1.trans hb'.1.symm, ha'.2.trans hb'.2.symm⟩

theorem one_le_countPair_of_present {rows : List TagRow} {fp tg : String}
    (h : pairPresent rows fp tg = true) : 1 ≤ countPair rows fp tg := by
  simp only [pairPresent, List.any_eq_true] at h
  obtain ⟨r, hr, hp⟩ := h
  exact List.length_pos_of_mem (List.mem_filter.2 ⟨hr, hp⟩)

theorem countPair_eq_zero {rows : List TagRow} {fp tg : String}
    (h : pairPresent rows fp tg = false) : countPair rows fp tg = 0 := by
  unfold countPair
  have hnil : rows.filter (fun r => r.filepath == fp && r.tag == tg) = [] := by
    apply List.filter_eq_nil_iff.2
    intro r hr hp
    have htrue : pairPresent rows fp tg = true := by
      simp only [pairPresent, List.any_eq_true]
      exact ⟨r, hr, hp⟩
    rw [h] at htrue
    cases htrue
  rw [hnil]
  rfl

theorem countPair_append_self (rows : List TagRow) (fp tg : String)
    (c : Option ℚ) :
    countPair (rows ++ [⟨fp, tg, c⟩]) fp tg = countPair rows fp tg + 1 := by
  unfold countPair
  rw [List.filter_append]
  simp

theorem mem_insertOrIgnoreTag_of_mem {rows : List TagRow} {r : TagRow}
    (fp tg : String) (c : Option ℚ) (h : r ∈ rows) :
    r ∈ insertOrIgnoreTag rows fp tg c := by
  unfold insertOrIgnoreTag
  split
  · exact h
  · exact List.mem_append_left _ h

/-- Claim C2: `add_tags_for_file` is idempotent per `(filepath, tag)` pair:
re-adding the pair with any confidence is a no-op, exactly one association
exists for the pair afterwards, and a previously recorded row (hence its
confidence) survives untouched. -/
theorem claim_C2_addTags_idempotent (rows : List TagRow) (fp t : String)
    (c c' : ℚ) (ht : t ≠ "") (hU : UniqueRows rows) :
    add_tags_for_file fp [⟨some t, some c'⟩]
        (add_tags_for_file fp [⟨some t, some c⟩] rows) =
      add_tags_for_file fp [⟨some t, some c⟩] rows ∧
    countPair (add_tags_for_file fp [⟨some t, some c⟩] rows) fp t = 1 ∧
    ∀ c₀ : Option ℚ, (⟨fp, t, c₀⟩ : TagRow) ∈ rows →
      (⟨fp, t, c₀⟩ : TagRow) ∈ add_tags_for_file fp [⟨some t, some c⟩] rows := by
  rw [add_tags_single fp t (some c) rows ht]
  refine ⟨?_, ?_, ?_⟩
  · rw [add_tags_single fp t (some c') _ ht]
    exact insertOrIgnoreTag_of_present _ (pairPresent_insertOrIgnoreTag rows fp t (some c))
  · by_cases h : pairPresent rows fp t = true
    · rw [insertOrIgnoreTag_of_present _ h]
      exact le_antisymm (countPair_le_one hU fp t) (one_le_countPair_of_present h)
    · have hfalse : pairPresent rows fp t = false := by
        rw [← Bool.not_eq_true]
        exact h
      have hcond : ¬ ((rows.any fun r => r.filepath == fp && r.tag == t) = true) := by
        simp only [pairPresent] at hfalse
        simp [hfalse]
      have hif : insertOrIgnoreTag rows fp t (some c) = rows ++ [⟨fp, t, some c⟩] := by
        unfold insertOrIgnoreTag
        rw [if_neg hcond]
      rw [hif, countPair_append_self, countPair_eq_zero hfalse]
  · intro c₀ hmem
    exact mem_insertOrIgnoreTag_of_mem fp t (some c) hmem

/-- Closed witness for claim C2 at a concrete store. -/
theorem claim_C2_addTags_idempotent_witness :
    add_tags_for_file "f" [⟨some "t", some (3/4)⟩]
        (add_tags_for_file "f" [⟨some "t", some (1/2)⟩] [⟨"f", "t", some 5⟩]) =
      add_tags_for_file "f" [⟨some "t", some (1/2)⟩] [⟨"f", "t", some 5⟩] ∧
    countPair (add_tags_for_file "f" [⟨some "t", some (1/2)⟩]
      [⟨"f", "t", some 5⟩]) "f" "t" = 1 ∧
    (⟨"f", "t", some 5⟩ : TagRow) ∈
      add_tags_for_file "f" [⟨some "t", some (1/2)⟩] [⟨"f", "t", some 5⟩] := by
  have h := claim_C2_addTags_idempotent [⟨"f", "t", some 5⟩] "f" "t" (1/2) (3/4)
    (by decide) (by simp [UniqueRows])
  exact ⟨h.1, h.2.1, h.2.2 (some 5) (by simp)⟩

theorem pairPresent_add_tags_of_mem (filepath : String) (tags : List TagInfo)
    (rows : List TagRow) (t : String) (c : Option ℚ)
    (ht : t ≠ "") (hmem : (⟨some t, c⟩ : TagInfo) ∈ tags) :
    pairPresent (add_tags_for_file filepath tags rows) filepath t = true := by
  induction tags generalizing rows with
  | nil => cases hmem
  | cons ti ts ih =>
      rcases List.mem_cons.1 hmem with h | h
      · have hstep : add_tags_for_file filepath (ti :: ts) rows =
            add_tags_for_file filepath ts (insertOrIgnoreTag rows filepath t c) := by
          simp [add_tags_for_file, ← h, ht]
        rw [hstep]
        exact pairPresent_add_tags_mono ts _ filepath filepath t
          (pairPresent_insertOrIgnoreTag rows filepath t c)
      · have hstep : ∀ rows' : List TagRow,
            add_tags_for_file filepath (ti :: ts) rows' =
              add_tags_for_file filepath ts
                (add_tags_for_file filepath [ti] rows') := by
          intro rows'
          simp [add_tags_for_file]
        rw [hstep]
        exact ih _ h

/-- Claim C9: an entry of `add_tags_for_file` whose tag name is missing,
`None`, or the empty string is silently dropped — the call behaves exactly
as if the entry were absent — while entries carrying a non-empty tag name
are still recorded. -/
theorem claim_C9_blank_tag_entry_skipped (fp : String) (xs ys : List TagInfo)
    (e : TagInfo) (rows : List TagRow)
    (he : e.tag = none ∨ e.tag = some "") :
    add_tags_for_file fp (xs ++ e :: ys) rows =
      add_tags_for_file fp (xs ++ ys) rows ∧
    ∀ t : String, t ≠ "" → (∃ c, (⟨some t, c⟩ : TagInfo) ∈ xs ++ ys) →
      pairPresent (add_tags_for_file fp (xs ++ e :: ys) rows) fp t = true := by
  have hkey : add_tags_for_file fp (xs ++ e :: ys) rows =
      add_tags_for_file fp (xs ++ ys) rows := by
    rcases he with h | h <;>
      simp [add_tags_for_file, List.foldl_append, List.foldl_cons, h]
  refine ⟨hkey, ?_⟩
  intro t ht hc
  obtain ⟨c, hmem⟩ := hc
  rw [hkey]
  exact pairPresent_add_tags_of_mem fp _ rows t c ht hmem

/-- Closed witness for claim C9: an entry with a `None` tag between two
valid entries changes nothing. -/
theorem claim_C9_blank_tag_entry_skipped_witness :
    add_tags_for_file "f" ([⟨some "a", some 1⟩] ++ (⟨none, some 1⟩ : TagInfo) ::
        [⟨some "b", none⟩]) [] =
      add_tags_for_file "f" ([⟨some "a", some 1⟩] ++ [⟨some "b", none⟩]) [] ∧
    pairPresent (add_tags_for_file "f" ([⟨some "a", some 1⟩] ++
      (⟨none, some 1⟩ : TagInfo) :: [⟨some "b", none⟩]) []) "f" "a" = true ∧
    pairPresent (add_tags_for_file "f" ([⟨some "a", some 1⟩] ++
      (⟨none, some 1⟩ : TagInfo) :: [⟨some "b", none⟩]) []) "f" "b" = true := by
  have h := claim_C9_blank_tag_entry_skipped "f" [⟨some "a", some 1⟩]
    [⟨some "b", none⟩] ⟨none, some 1⟩ [] (Or.inl rfl)
  exact ⟨h.1, h.2 "a" (by decide) ⟨some 1, by simp⟩, h.2 "b" (by decide) ⟨none, by simp⟩⟩

/-- Claim C5: the Tagging Invoker retains a tag iff its confidence is
strictly greater than `0.4`: membership in the written set is equivalent
to `0.4 < confidence`, a tag at exactly `0.4` causes zero writes, and a
tag at `0.41` reaches the store. -/
theorem claim_C5_confidence_threshold (raw : List (String × ℚ))
    (t p : String) (c : ℚ) (rows : List TagRow) :
    ((⟨some t, some c⟩ : TagInfo) ∈ tags_to_add raw ↔
      (t, c) ∈ raw ∧ (0.4 : ℚ) < c) ∧
    tags_to_add [(t, 0.4)] = [] ∧
    tags_to_add [(t, 0.41)] = [⟨some t, some 0.41⟩] ∧
    autotag_file p (.ok [(t, 0.4)]) rows = rows ∧
    (t ≠ "" →
      pairPresent (autotag_file p (.ok [(t, 0.41)]) rows) p t = true) := by
  have h04 : ¬ ((0.4 : ℚ) < 0.4) := by norm_num
  have h41 : (0.4 : ℚ) < 0.41 := by norm_num
  have hnil : tags_to_add [(t, 0.4)] = [] := by
    simp [tags_to_add, h04]
  have hone : tags_to_add [(t, 0.41)] = [⟨some t, some 0.41⟩] := by
    simp [tags_to_add, h41]
  refine ⟨?_, hnil, hone, ?_, ?_⟩
  · simp only [tags_to_add, List.mem_map, List.mem_filter, TagInfo.mk.injEq,
      Option.some.injEq, decide_eq_true_eq]
    constructor
    · rintro ⟨⟨a, b⟩, ⟨hmem, hlt⟩, ha, hb⟩
      subst ha
      subst hb
      exact ⟨hmem, hlt⟩
    · rintro ⟨hmem, hlt⟩
      exact ⟨(t, c), ⟨hmem, hlt⟩, rfl, rfl⟩
  · simp [autotag_file, hnil]
  · intro ht
    have : autotag_file p (.ok [(t, 0.41)]) rows =
        add_tags_for_file p [⟨some t, some 0.41⟩] rows := by
      simp [autotag_file, hone]
    rw [this, add_tags_single p t (some 0.41) rows ht]
    exact pairPresent_insertOrIgnoreTag rows p t (some 0.41)

/-- Closed witness for claim C5 at a concrete tag list. -/
theorem claim_C5_confidence_threshold_witness :
    ((⟨some "x", some (1/2)⟩ : TagInfo) ∈ tags_to_add [("x", 1/2)] ↔
      ("x", (1/2 : ℚ)) ∈ [("x", (1/2 : ℚ))] ∧ (0.4 : ℚ) < 1/2) ∧
    tags_to_add [("x", 0.4)] = [] ∧
    tags_to_add [("x", 0.41)] = [⟨some "x", some 0.41⟩] ∧
    autotag_file "p" (.ok [("x", 0.4)]) [] = [] ∧
    pairPresent (autotag_file "p" (.ok [("x", 0.41)]) []) "p" "x" = true := by
  have h := claim_C5_confidence_threshold [("x", 1/2)] "x" "p" (1/2) []
  exact ⟨h.1, h.2.1, h.2.2.1, h.2.2.2.1, h.2.2.2.2 (by decide)⟩

/-! ## Helper lemmas: processed-image index and bulk job loop -/

theorem mem_mark_self (h : String) (processed : List String) :
    h ∈ mark_image_as_processed h processed := by
  unfold mark_image_as_processed
  split
  · next hc => exact List.mem_of_elem_eq_true hc
  · exact List.mem_append_right _ (by simp)

theorem mem_mark_mono {h' : String} (h : String) {processed : List String}
    (hm : h' ∈ processed) : h' ∈ mark_image_as_processed h processed := by
  unfold mark_image_as_processed
  split
  · exact hm
  · exact List.mem_append_left _ hm

theorem run_autotag_job_processed_mono (files : List FileUnit) (p : Db × Nat)
    (h : String) (hmem : h ∈ p.1.processed_images) :
    h ∈ (files.foldl (fun acc u =>
      let r := autotag_and_mark u acc.1
      (r.1, acc.2 + if r.2 then 1 else 0)) p).1.processed_images := by
  induction files generalizing p with
  | nil => exact hmem
  | cons u us ih =>
      simp only [List.foldl_cons]
      exact ih _ (mem_mark_mono u.image_hash hmem)

theorem run_autotag_job_count_aux (files : List FileUnit) (p : Db × Nat) :
    (files.foldl (fun acc u =>
      let r := autotag_and_mark u acc.1
      (r.1, acc.2 + if r.2 then 1 else 0)) p).2 = p.2 + files.length := by
  induction files generalizing p with
  | nil => simp
  | cons u us ih =>
      simp only [List.foldl_cons]
      rw [ih]
      simp only [autotag_and_mark, List.length_cons, if_true]
      omega

theorem run_autotag_job_marks_aux (files : List FileUnit) :
    ∀ (p : Db × Nat) (u : FileUnit), u ∈ files →
      u.image_hash ∈ (files.foldl (fun acc u =>
        let r := autotag_and_mark u acc.1
        (r.1, acc.2 + if r.2 then 1 else 0)) p).1.processed_images := by
  induction files with
  | nil =>
      intro p u hu
      cases hu
  | cons v vs ih =>
      intro p u hu
      simp only [List.foldl_cons]
      rcases List.mem_cons.1 hu with h | h
      · subst h
        exact run_autotag_job_processed_mono vs _ u.image_hash
          (mem_mark_self u.image_hash p.1.processed_images)
      · exact ih _ u h

/-- Claim C10: in the loop shared by both bulk tagging tasks, every
enumerated file's content hash is inserted into the processed-image index
and every per-file unit reports success, whatever the tagger call did
(disabled, transport error, malformed response, or no tag above the
threshold all leave `image_tags` unchanged yet still count); hence the
job's processed-count equals the number of attempted files. -/
theorem claim_C10_bulk_job_counts_attempts (files : List FileUnit) (db : Db) :
    (run_autotag_job files db).2 = files.length ∧
    (∀ u ∈ files, u.image_hash ∈ (run_autotag_job files db).1.processed_images) ∧
    (∀ (u : FileUnit) (db' : Db), (autotag_and_mark u db').2 = true) ∧
    (∀ (u : FileUnit) (db' : Db),
      (u.resp = .disabled ∨ u.resp = .malformed ∨
        (∃ m, u.resp = .transportError m) ∨
        (∃ raw, u.resp = .ok raw ∧ tags_to_add raw = [])) →
      (autotag_and_mark u db').1.image_tags = db'.image_tags ∧
      (autotag_and_mark u db').2 = true) := by
  refine ⟨?_, ?_, fun u db' => rfl, ?_⟩
  · have h := run_autotag_job_count_aux files (db, 0)
    simpa [run_autotag_job] using h
  · intro u hu
    exact run_autotag_job_marks_aux files (db, 0) u hu
  · intro u db' hz
    refine ⟨?_, rfl⟩
    show autotag_file u.relative_path u.resp db'.image_tags = db'.image_tags
    rcases hz with h | h | ⟨m, h⟩ | ⟨raw, h, hraw⟩
    · rw [h]
      rfl
    · rw [h]
      rfl
    · rw [h]
      rfl
    · rw [h]
      simp [autotag_file, hraw]

/-- Closed witness for claim C10: a two-file job, one unit with the tagger
disabled and one with a transport error, still counts two processed files
and marks both hashes. -/
theorem claim_C10_bulk_job_counts_attempts_witness :
    (run_autotag_job [⟨"a.jpg", "h1", .disabled⟩,
      ⟨"b.jpg", "h2", .transportError "timeout"⟩] init_db).2 = 2 ∧
    "h1" ∈ (run_autotag_job [⟨"a.jpg", "h1", .disabled⟩,
      ⟨"b.jpg", "h2", .transportError "timeout"⟩] init_db).1.processed_images ∧
    "h2" ∈ (run_autotag_job [⟨"a.jpg", "h1", .disabled⟩,
      ⟨"b.jpg", "h2", .transportError "timeout"⟩] init_db).1.processed_images ∧
    (autotag_and_mark ⟨"a.jpg", "h1", .disabled⟩ init_db).2 = true ∧
    (autotag_and_mark ⟨"a.jpg", "h1", .disabled⟩ init_db).1.image_tags = [] := by
  have h := claim_C10_bulk_job_counts_attempts
    [⟨"a.jpg", "h1", .disabled⟩, ⟨"b.jpg", "h2", .transportError "timeout"⟩]
    init_db
  exact ⟨h.1, h.2.1 ⟨"a.jpg", "h1", .disabled⟩ (by simp),
    h.2.1 ⟨"b.jpg", "h2", .transportError "timeout"⟩ (by simp),
    h.2.2.1 ⟨"a.jpg", "h1", .disabled⟩ init_db,
    (h.2.2.2 ⟨"a.jpg", "h1", .disabled⟩ init_db (Or.inl rfl)).1⟩

/-! ## Helper lemmas: pagination -/

theorem pageItems_chunks {α : Type} (l : List α) (P : Nat) (n : Nat) :
    (List.range n).flatMap (fun k => pageItems l (k + 1) P) = l.take (n * P) := by
  induction n with
  | zero => simp
  | succ m ih =>
      rw [List.range_succ, List.flatMap_append]
      simp only [List.flatMap_cons, List.flatMap_nil, List.append_nil]
      rw [ih]
      unfold pageItems
      simp only [Nat.add_sub_cancel]
      rw [Nat.succ_mul, List.take_add]

theorem le_total_pages_mul (T P : Nat) (hP : 0 < P) :
    T ≤ total_pages T P * P := by
  unfold total_pages
  rcases Nat.eq_zero_or_pos T with rfl | hT
  · simp
  · rw [if_pos hT]
    have h1 := Nat.div_add_mod (T + P - 1) P
    have h2 : (T + P - 1) % P < P := Nat.mod_lt _ hP
    obtain ⟨m, hm⟩ : ∃ m, P * ((T + P - 1) / P) = m := ⟨_, rfl⟩
    rw [hm] at h1
    have hTm : T ≤ m := by omega
    calc T ≤ m := hTm
    _ = P * ((T + P - 1) / P) := hm.symm
    _ = (T + P - 1) / P * P := Nat.mul_comm ..

theorem total_pages_mul_lt (T P : Nat) (hP : 0 < P) (hT : 0 < T) :
    total_pages T P * P < T + P := by
  unfold total_pages
  rw [if_pos hT]
  have := Nat.div_mul_le_self (T + P - 1) P
  omega

theorem total_pages_eq_ceil (T P : Nat) (hP : 0 < P) :
    (total_pages T P : ℤ) = ⌈(T : ℚ) / (P : ℚ)⌉ := by
  have hPQ : (0 : ℚ) < (P : ℚ) := by exact_mod_cast hP
  rcases Nat.eq_zero_or_pos T with rfl | hT
  · simp [total_pages]
  · symm
    rw [Int.ceil_eq_iff]
    constructor
    · rw [lt_div_iff₀ hPQ]
      have hlt : total_pages T P * P < T + P := total_pages_mul_lt T P hP hT
      have hc : ((total_pages T P : ℚ)) * P < (T : ℚ) + P := by exact_mod_cast hlt
      push_cast
      nlinarith [hc]
    · rw [div_le_iff₀ hPQ]
      have hle : T ≤ total_pages T P * P := le_total_pages_mul T P hP
      have : (T : ℚ) ≤ (total_pages T P : ℚ) * P := by exact_mod_cast hle
      push_cast
      linarith

/-- Claim C4: every paginated listing reports
`total_pages = ceil(total/per_page)` (zero when the total is zero), and in
a stable sort mode concatenating pages `1..total_pages` reproduces the
full item list with no duplicates or omissions. -/
theorem claim_C4_pagination {α : Type} (l : List α) (P : Nat) (hP : 0 < P) :
    (total_pages l.length P : ℤ) = ⌈(l.length : ℚ) / (P : ℚ)⌉ ∧
    (l.length = 0 → total_pages l.length P = 0) ∧
    (List.range (total_pages l.length P)).flatMap
      (fun k => pageItems l (k + 1) P) = l := by
  refine ⟨total_pages_eq_ceil _ _ hP, ?_, ?_⟩
  · intro h
    simp [total_pages, h]
  · rw [pageItems_chunks]
    exact List.take_of_length_le (le_total_pages_mul _ _ hP)

/-- Closed witness for claim C4: five items at two per page give three
pages whose concatenation is the original list, and an empty listing has
zero pages. -/
theorem claim_C4_pagination_witness :
    (total_pages ([1, 2, 3, 4, 5] : List ℕ).length 2 : ℤ) =
      ⌈(([1, 2, 3, 4, 5] : List ℕ).length : ℚ) / (2 : ℚ)⌉ ∧
    (List.range (total_pages ([1, 2, 3, 4, 5] : List ℕ).length 2)).flatMap
      (fun k => pageItems ([1, 2, 3, 4, 5] : List ℕ) (k + 1) 2) =
      [1, 2, 3, 4, 5] ∧
    total_pages (([] : List ℕ)).length 2 = 0 := by
  have h5 := claim_C4_pagination ([1, 2, 3, 4, 5] : List ℕ) 2 (by decide)
  have h0 := claim_C4_pagination ([] : List ℕ) 2 (by decide)
  exact ⟨h5.1, h5.2.2, h0.2.1 rfl⟩

/-! ## Helper lemmas: tag search -/

theorem mem_selectFilepathsByTag {rows : List TagRow} {t p : String} :
    p ∈ selectFilepathsByTag rows t ↔ ∃ r ∈ rows, r.filepath = p ∧ r.tag = t := by
  simp only [selectFilepathsByTag, List.mem_map, List.mem_filter, beq_iff_eq]
  constructor
  · rintro ⟨r, ⟨hr, ht⟩, hp⟩
    exact ⟨r, hr, hp, ht⟩
  · rintro ⟨r, hr, hp, ht⟩
    exact ⟨r, ⟨hr, ht⟩, hp⟩

theorem mem_sqlIntersect {a b : List String} {x : String} :
    x ∈ sqlIntersect a b ↔ x ∈ a ∧ x ∈ b := by
  simp [sqlIntersect, List.mem_dedup, List.mem_filter]

theorem mem_foldl_intersect (rows : List TagRow) (ts : List String)
    (acc : List String) (p : String) :
    (p ∈ ts.foldl
      (fun acc t2 => sqlIntersect acc (selectFilepathsByTag rows t2)) acc) ↔
      p ∈ acc ∧ ∀ t ∈ ts, ∃ r ∈ rows, r.filepath = p ∧ r.tag = t := by
  induction ts generalizing acc with
  | nil => simp
  | cons t ts ih =>
      simp only [List.foldl_cons]
      rw [ih, mem_sqlIntersect, mem_selectFilepathsByTag, List.forall_mem_cons]
      tauto

/-- Claim C3: `find_files_by_tags` has AND-intersection semantics:
membership in the two-tag query is exactly joint membership in the two
single-tag queries, and in general a non-empty query returns exactly the
files carrying every listed tag. -/
theorem claim_C3_findByTags_intersection (rows : List TagRow)
    (a b p : String) (tags : List String) :
    (p ∈ find_files_by_tags rows [a, b] ↔
      p ∈ find_files_by_tags rows [a] ∧ p ∈ find_files_by_tags rows [b]) ∧
    (tags ≠ [] → (p ∈ find_files_by_tags rows tags ↔
      ∀ t ∈ tags, ∃ r ∈ rows, r.filepath = p ∧ r.tag = t)) := by
  have hgen : ∀ (t : String) (ts : List String),
      p ∈ find_files_by_tags rows (t :: ts) ↔
        ∀ t' ∈ t :: ts, ∃ r ∈ rows, r.filepath = p ∧ r.tag = t' := by
    intro t ts
    show (p ∈ ts.foldl
      (fun acc t2 => sqlIntersect acc (selectFilepathsByTag rows t2))
      (selectFilepathsByTag rows t)) ↔ _
    rw [mem_foldl_intersect, mem_selectFilepathsByTag, List.forall_mem_cons]
  constructor
  · rw [hgen a [b], hgen a [], hgen b []]
    simp only [List.forall_mem_cons, List.forall_mem_singleton]
    tauto
  · intro h
    match tags with
    | [] => exact absurd rfl h
    | t :: ts => exact hgen t ts

/-- Closed witness for claim C3 on a concrete three-row store. -/
theorem claim_C3_findByTags_intersection_witness :
    ("f1" ∈ find_files_by_tags [⟨"f1", "a", some 1⟩, ⟨"f1", "b", some 1⟩,
        ⟨"f2", "a", some 1⟩] ["a", "b"] ↔
      "f1" ∈ find_files_by_tags [⟨"f1", "a", some 1⟩, ⟨"f1", "b", some 1⟩,
        ⟨"f2", "a", some 1⟩] ["a"] ∧
      "f1" ∈ find_files_by_tags [⟨"f1", "a", some 1⟩, ⟨"f1", "b", some 1⟩,
        ⟨"f2", "a", some 1⟩] ["b"]) ∧
    ("f1" ∈ find_files_by_tags [⟨"f1", "a", some 1⟩, ⟨"f1", "b", some 1⟩,
        ⟨"f2", "a", some 1⟩] ["a", "b"] ↔
      ∀ t ∈ ["a", "b"], ∃ r ∈ [(⟨"f1", "a", some 1⟩ : TagRow),
        ⟨"f1", "b", some 1⟩, ⟨"f2", "a", some 1⟩],
        r.filepath = "f1" ∧ r.tag = t) := by
  have h := claim_C3_findByTags_intersection
    [⟨"f1", "a", some 1⟩, ⟨"f1", "b", some 1⟩, ⟨"f2", "a", some 1⟩]
    "a" "b" "f1" ["a", "b"]
  exact ⟨h.1, h.2 (by decide)⟩

/-! ## Helper lemmas: ingestion batch -/

theorem filter_length_pos_iff {α : Type} (l : List α) (p : α → Bool) :
    0 < (l.filter p).length ↔ ∃ r ∈ l, p r = true := by
  rw [List.length_pos_iff_exists_mem]
  constructor
  · rintro ⟨a, ha⟩
    have := List.mem_filter.1 ha
    exact ⟨a, this.1, this.2⟩
  · rintro ⟨r, hr, hp⟩
    exact ⟨r, List.mem_filter.2 ⟨hr, hp⟩⟩

/-- Claim C7: for a non-empty URL list, `download_all_images` aggregates
per-URL outcomes into success/skipped counts and per-file detail lists,
its overall `success` flag is true iff at least one URL succeeded, and
failed URLs only appear in the `errors` detail list — they never flip the
batch-level flag. -/
theorem claim_C7_batch_aggregate (md5 : List Nat → String)
    (inputs : List (Fetch × TagResp)) (tweet_id username : String) (st : St)
    (h : inputs ≠ []) :
    ∃ res : BatchResult,
      (download_all_images md5 inputs tweet_id username st).2 = some res ∧
      (res.success = true ↔ ∃ r ∈ (runDownloads md5 inputs
        (username ++ "/" ++ tweet_id) tweet_id 1 st).2, r.isSuccess = true) ∧
      res.downloaded_count = ((runDownloads md5 inputs
        (username ++ "/" ++ tweet_id) tweet_id 1 st).2.filter
          Outcome.isSuccess).length ∧
      res.skipped_count = ((runDownloads md5 inputs
        (username ++ "/" ++ tweet_id) tweet_id 1 st).2.filter
          Outcome.isSkipped).length ∧
      res.files = (runDownloads md5 inputs
        (username ++ "/" ++ tweet_id) tweet_id 1 st).2.filter
          Outcome.isSuccess ∧
      res.skipped = (runDownloads md5 inputs
        (username ++ "/" ++ tweet_id) tweet_id 1 st).2.filter
          Outcome.isSkipped ∧
      res.errors = (runDownloads md5 inputs
        (username ++ "/" ++ tweet_id) tweet_id 1 st).2.filter
          Outcome.isFailed := by
  have hne : inputs.isEmpty = false := by
    simp [List.isEmpty_iff]
    exact h
  have heq : (download_all_images md5 inputs tweet_id username st).2 =
      some ⟨decide (((runDownloads md5 inputs
          (username ++ "/" ++ tweet_id) tweet_id 1 st).2.filter
            Outcome.isSuccess).length > 0),
        ((runDownloads md5 inputs (username ++ "/" ++ tweet_id) tweet_id 1
          st).2.filter Outcome.isSuccess).length,
        ((runDownloads md5 inputs (username ++ "/" ++ tweet_id) tweet_id 1
          st).2.filter Outcome.isSkipped).length,
        (runDownloads md5 inputs (username ++ "/" ++ tweet_id) tweet_id 1
          st).2.filter Outcome.isSuccess,
        (runDownloads md5 inputs (username ++ "/" ++ tweet_id) tweet_id 1
          st).2.filter Outcome.isSkipped,
        (runDownloads md5 inputs (username ++ "/" ++ tweet_id) tweet_id 1
          st).2.filter Outcome.isFailed⟩ := by
    unfold download_all_images
    rw [if_neg (by simp [hne])]
  refine ⟨_, heq, ?_, rfl, rfl, rfl, rfl, rfl⟩
  rw [decide_eq_true_eq]
  have := filter_length_pos_iff (runDownloads md5 inputs
    (username ++ "/" ++ tweet_id) tweet_id 1 st).2 Outcome.isSuccess
  exact this

/-- Closed witness for claim C7: a batch of one failing URL and one
succeeding URL reports overall success with the failure kept in the
`errors` list. -/
theorem claim_C7_batch_aggregate_witness :
    ∃ res : BatchResult,
      (download_all_images (fun _ => "H") [(.failure "timeout", .disabled),
        (.success [1] "x", .disabled)] "1" "u" ⟨⟨[], []⟩, []⟩).2 = some res ∧
      (res.success = true ↔ ∃ r ∈ (runDownloads (fun _ => "H")
        [(.failure "timeout", .disabled), (.success [1] "x", .disabled)]
        ("u" ++ "/" ++ "1") "1" 1 ⟨⟨[], []⟩, []⟩).2, r.isSuccess = true) ∧
      res.downloaded_count = ((runDownloads (fun _ => "H")
        [(.failure "timeout", .disabled), (.success [1] "x", .disabled)]
        ("u" ++ "/" ++ "1") "1" 1 ⟨⟨[], []⟩, []⟩).2.filter
          Outcome.isSuccess).length ∧
      res.skipped_count = ((runDownloads (fun _ => "H")
        [(.failure "timeout", .disabled), (.success [1] "x", .disabled)]
        ("u" ++ "/" ++ "1") "1" 1 ⟨⟨[], []⟩, []⟩).2.filter
          Outcome.isSkipped).length ∧
      res.files = (runDownloads (fun _ => "H")
        [(.failure "timeout", .disabled), (.success [1] "x", .disabled)]
        ("u" ++ "/" ++ "1") "1" 1 ⟨⟨[], []⟩, []⟩).2.filter
          Outcome.isSuccess ∧
      res.skipped = (runDownloads (fun _ => "H")
        [(.failure "timeout", .disabled), (.success [1] "x", .disabled)]
        ("u" ++ "/" ++ "1") "1" 1 ⟨⟨[], []⟩, []⟩).2.filter
          Outcome.isSkipped ∧
      res.errors = (runDownloads (fun _ => "H")
        [(.failure "timeout", .disabled), (.success [1] "x", .disabled)]
        ("u" ++ "/" ++ "1") "1" 1 ⟨⟨[], []⟩, []⟩).2.filter
          Outcome.isFailed :=
  claim_C7_batch_aggregate (fun _ => "H")
    [(.failure "timeout", .disabled), (.success [1] "x", .disabled)]
    "1" "u" ⟨⟨[], []⟩, []⟩ (by simp)

/-! ## Helper lemmas: deterministic filenames -/

theorem download_image_task_success_path (md5 : List Nat → String)
    (c : List Nat) (ct : String) (resp : TagResp) (dir : String) (i : Nat)
    (tid : String) (st : St) (p : String)
    (h : (download_image_task md5 (.success c ct) resp dir i tid st).2 =
      .success p) :
    p = dir ++ "/" ++ (tid ++ "_" ++ pad2 i ++ ext_for ct) := by
  simp only [download_image_task] at h
  split at h
  · simp at h
  · split at h
    · simp only [Outcome.success.injEq] at h
      exact h.symm
    · simp at h

theorem download_image_task_success_inv (md5 : List Nat → String)
    (f : Fetch) (resp : TagResp) (dir : String) (i : Nat) (tid : String)
    (st : St) (p : String)
    (h : (download_image_task md5 f resp dir i tid st).2 = .success p) :
    ∃ c ct, f = .success c ct ∧
      p = dir ++ "/" ++ (tid ++ "_" ++ pad2 i ++ ext_for ct) := by
  match f with
  | .failure r => simp [download_image_task] at h
  | .success c ct =>
      exact ⟨c, ct, rfl,
        download_image_task_success_path md5 c ct resp dir i tid st p h⟩

theorem runDownloads_success_filename (md5 : List Nat → String)
    (inputs : List (Fetch × TagResp)) (dir tid : String) (i : Nat) (st : St)
    (j : Nat) (p : String)
    (hres : (runDownloads md5 inputs dir tid i st).2[j]? =
      some (.success p)) :
    ∃ c ct resp, inputs[j]? = some (.success c ct, resp) ∧
      p = dir ++ "/" ++ (tid ++ "_" ++ pad2 (i + j) ++ ext_for ct) := by
  induction inputs generalizing i st j with
  | nil => simp [runDownloads] at hres
  | cons x xs ih =>
      match j with
      | 0 =>
          simp only [runDownloads, List.getElem?_cons_zero,
            Option.some.injEq] at hres
          obtain ⟨c, ct, hf, hp⟩ :=
            download_image_task_success_inv md5 x.1 x.2 dir i tid st p hres
          refine ⟨c, ct, x.2, ?_, by simpa using hp⟩
          simp only [List.getElem?_cons_zero, Option.some.injEq]
          rw [← hf]
      | j' + 1 =>
          simp only [runDownloads, List.getElem?_cons_succ] at hres
          obtain ⟨c, ct, resp, h1, h2⟩ := ih (i + 1) _ j' hres
          refine ⟨c, ct, resp, by simpa using h1, ?_⟩
          have harith : i + (j' + 1) = (i + 1) + j' := by omega
          rw [harith]
          exact h2

set_option maxHeartbeats 4000000 in
set_option maxRecDepth 10000 in
theorem pad2_injective_below_100 :
    ∀ j₁ : Nat, j₁ < 99 → ∀ j₂ : Nat, j₂ < 99 → j₁ ≠ j₂ →
      pad2 (j₁ + 1) ≠ pad2 (j₂ + 1) := by decide

/-- Claim C8: in the batch started by `download_all_images` (indices from
1 in input order), a success at 0-based input position `j` is stored under
`{tweet_id}_{pad2 (1+j)}{ext}` inside the post directory — the sequence
number is determined by the input position alone, so a skipped or failed
URL's number is never reused by a later URL (distinct positions give
distinct two-digit sequence strings). -/
theorem claim_C8_deterministic_filenames (md5 : List Nat → String)
    (inputs : List (Fetch × TagResp)) (tweet_id username : String) (st : St)
    (j : Nat) (p : String)
    (hres : (runDownloads md5 inputs (username ++ "/" ++ tweet_id) tweet_id 1
      st).2[j]? = some (.success p)) :
    (∃ c ct resp, inputs[j]? = some (.success c ct, resp) ∧
      p = username ++ "/" ++ tweet_id ++ "/" ++
        (tweet_id ++ "_" ++ pad2 (1 + j) ++ ext_for ct)) ∧
    ∀ j₁ : Nat, j₁ < 99 → ∀ j₂ : Nat, j₂ < 99 → j₁ ≠ j₂ →
      pad2 (j₁ + 1) ≠ pad2 (j₂ + 1) := by
  constructor
  · exact runDownloads_success_filename md5 inputs
      (username ++ "/" ++ tweet_id) tweet_id 1 st j p hres
  · exact pad2_injective_below_100

/-- Closed witness for claim C8: with a failing first URL, the second URL
keeps sequence number `02`. -/
theorem claim_C8_deterministic_filenames_witness :
    (∃ c ct resp, ([((.failure "e" : Fetch), (.disabled : TagResp)),
      (.success [7] "image/png", .disabled)])[1]? =
        some (.success c ct, resp) ∧
      "u/123/123_02.png" = "u" ++ "/" ++ "123" ++ "/" ++
        ("123" ++ "_" ++ pad2 (1 + 1) ++ ext_for ct)) ∧
    ∀ j₁ : Nat, j₁ < 99 → ∀ j₂ : Nat, j₂ < 99 → j₁ ≠ j₂ →
      pad2 (j₁ + 1) ≠ pad2 (j₂ + 1) :=
  claim_C8_deterministic_filenames (fun _ => "H")
    [(.failure "e", .disabled), (.success [7] "image/png", .disabled)]
    "123" "u" ⟨⟨[], []⟩, []⟩ 1 "u/123/123_02.png" (by rfl)

/-! ## Helper lemmas: content-hash duplicate suppression -/

/-- Does this fetch carry exactly the byte content `b`? -/
def fetchHasContent (b : List Nat) : Fetch → Bool
  | .success c _ => c == b
  | .failure _ => false

/-- Number of downloads in a batch that fetched content `b` and were
persisted (outcome `success`), pairing inputs with their outcomes. -/
def countPersisted (b : List Nat) (inputs : List (Fetch × TagResp))
    (results : List Outcome) : Nat :=
  ((inputs.zip results).filter
    (fun x => fetchHasContent b x.1.1 && x.2.isSuccess)).length

theorem runDownloads_cons (md5 : List Nat → String) (x : Fetch × TagResp)
    (xs : List (Fetch × TagResp)) (dir tid : String) (i : Nat) (st : St) :
    runDownloads md5 (x :: xs) dir tid i st =
      ((runDownloads md5 xs dir tid (i + 1)
        (download_image_task md5 x.1 x.2 dir i tid st).1).1,
       (download_image_task md5 x.1 x.2 dir i tid st).2 ::
        (runDownloads md5 xs dir tid (i + 1)
          (download_image_task md5 x.1 x.2 dir i tid st).1).2) := rfl

theorem countPersisted_cons (b : List Nat) (x : Fetch × TagResp)
    (r : Outcome) (inputs : List (Fetch × TagResp)) (results : List Outcome) :
    countPersisted b (x :: inputs) (r :: results) =
      (if (fetchHasContent b x.1 && r.isSuccess) = true then 1 else 0) +
        countPersisted b inputs results := by
  unfold countPersisted
  simp only [List.zip_cons_cons, List.filter_cons]
  split
  · simp [Nat.add_comm]
  · simp

theorem download_image_task_skip (md5 : List Nat → String) (c : List Nat)
    (ct : String) (resp : TagResp) (dir : String) (i : Nat) (tid : String)
    (st : St)
    (hproc : is_image_processed (md5 c) st.db.processed_images = true) :
    download_image_task md5 (.success c ct) resp dir i tid st =
      (st, .skipped "Duplicate image (already processed)") := by
  simp [download_image_task, hproc]

theorem download_image_task_processed_mono (md5 : List Nat → String)
    (f : Fetch) (resp : TagResp) (dir : String) (i : Nat) (tid : String)
    (st : St) (h : String) (hm : h ∈ st.db.processed_images) :
    h ∈ (download_image_task md5 f resp dir i tid st).1.db.processed_images := by
  match f with
  | .failure r => exact hm
  | .success c ct =>
      by_cases hproc : is_image_processed (md5 c) st.db.processed_images = true
      · rw [download_image_task_skip md5 c ct resp dir i tid st hproc]
        exact hm
      · by_cases hlen : c.length > 0
        · simp only [download_image_task, hproc, if_false, hlen, if_true]
          exact mem_mark_mono _ hm
        · simp only [download_image_task, hproc, if_false, hlen, if_true]
          exact hm

theorem runDownloads_processed_mono (md5 : List Nat → String)
    (inputs : List (Fetch × TagResp)) (dir tid : String) (i : Nat) (st : St)
    (h : String) (hm : h ∈ st.db.processed_images) :
    h ∈ (runDownloads md5 inputs dir tid i st).1.db.processed_images := by
  induction inputs generalizing i st with
  | nil => exact hm
  | cons x xs ih =>
      rw [runDownloads_cons]
      exact ih (i + 1) _
        (download_image_task_processed_mono md5 x.1 x.2 dir i tid st h hm)

theorem download_image_task_success_marks (md5 : List Nat → String)
    (c : List Nat) (ct : String) (resp : TagResp) (dir : String) (i : Nat)
    (tid : String) (st : St)
    (hsucc : ((download_image_task md5 (.success c ct) resp dir i tid
      st).2).isSuccess = true) :
    md5 c ∈ (download_image_task md5 (.success c ct) resp dir i tid
      st).1.db.processed_images := by
  by_cases hproc : is_image_processed (md5 c) st.db.processed_images = true
  · rw [download_image_task_skip md5 c ct resp dir i tid st hproc] at hsucc
    exact absurd hsucc (by simp [Outcome.isSuccess])
  · by_cases hlen : c.length > 0
    · simp only [download_image_task, hproc, if_false, hlen, if_true]
      exact mem_mark_self _ _
    · exfalso
      simp only [download_image_task, hproc, if_false, hlen, if_true] at hsucc
      exact absurd hsucc (by simp [Outcome.isSuccess])

theorem fetchHasContent_inv {b : List Nat} {f : Fetch}
    (h : fetchHasContent b f = true) : ∃ ct, f = .success b ct := by
  match f with
  | .failure r => simp [fetchHasContent] at h
  | .success c ct =>
      simp only [fetchHasContent, beq_iff_eq] at h
      exact ⟨ct, by rw [h]⟩

theorem head_pred_false (md5 : List Nat → String) (b : List Nat) (f : Fetch)
    (resp : TagResp) (dir tid : String) (i : Nat) (st : St)
    (hb : md5 b ∈ st.db.processed_images) :
    (fetchHasContent b f &&
      ((download_image_task md5 f resp dir i tid st).2).isSuccess) = false := by
  match f with
  | .failure r => simp [fetchHasContent]
  | .success c ct =>
      by_cases hcb : c = b
      · subst hcb
        have hproc : is_image_processed (md5 c) st.db.processed_images = true := by
          simpa [is_image_processed] using hb
        rw [download_image_task_skip md5 c ct resp dir i tid st hproc]
        simp [Outcome.isSuccess]
      · simp [fetchHasContent, hcb]

theorem countPersisted_zero (md5 : List Nat → String) (b : List Nat)
    (inputs : List (Fetch × TagResp)) (dir tid : String) (i : Nat) (st : St)
    (hb : md5 b ∈ st.db.processed_images) :
    countPersisted b inputs (runDownloads md5 inputs dir tid i st).2 = 0 := by
  induction inputs generalizing i st with
  | nil => rfl
  | cons x xs ih =>
      rw [runDownloads_cons, countPersisted_cons]
      rw [head_pred_false md5 b x.1 x.2 dir tid i st hb]
      simp only [Bool.false_eq_true, if_false, Nat.zero_add]
      exact ih (i + 1) _
        (download_image_task_processed_mono md5 x.1 x.2 dir i tid st _ hb)

theorem countPersisted_pos_marks (md5 : List Nat → String) (b : List Nat)
    (inputs : List (Fetch × TagResp)) (dir tid : String) (i : Nat) (st : St)
    (h : 0 < countPersisted b inputs (runDownloads md5 inputs dir tid i st).2) :
    md5 b ∈ (runDownloads md5 inputs dir tid i st).1.db.processed_images := by
  induction inputs generalizing i st with
  | nil => simp [runDownloads, countPersisted] at h
  | cons x xs ih =>
      rw [runDownloads_cons] at h ⊢
      rw [countPersisted_cons] at h
      by_cases hhead : (fetchHasContent b x.1 &&
        ((download_image_task md5 x.1 x.2 dir i tid st).2).isSuccess) = true
      · rw [Bool.and_eq_true] at hhead
        obtain ⟨hfc, hsucc⟩ := hhead
        obtain ⟨ct, hf⟩ := fetchHasContent_inv hfc
        have hmark : md5 b ∈
            (download_image_task md5 x.1 x.2 dir i tid st).1.db.processed_images := by
          rw [hf] at hsucc ⊢
          exact download_image_task_success_marks md5 b ct x.2 dir i tid st hsucc
        exact runDownloads_processed_mono md5 xs dir tid (i + 1) _ _ hmark
      · rw [if_neg hhead] at h
        simp only [Nat.zero_add] at h
        exact ih (i + 1) _ h

theorem countPersisted_le_one (md5 : List Nat → String) (b : List Nat)
    (inputs : List (Fetch × TagResp)) (dir tid : String) (i : Nat) (st : St) :
    countPersisted b inputs (runDownloads md5 inputs dir tid i st).2 ≤ 1 := by
  induction inputs generalizing i st with
  | nil => exact Nat.zero_le 1
  | cons x xs ih =>
      rw [runDownloads_cons, countPersisted_cons]
      by_cases hhead : (fetchHasContent b x.1 &&
        ((download_image_task md5 x.1 x.2 dir i tid st).2).isSuccess) = true
      · rw [if_pos hhead]
        rw [Bool.and_eq_true] at hhead
        obtain ⟨hfc, hsucc⟩ := hhead
        obtain ⟨ct, hf⟩ := fetchHasContent_inv hfc
        have hmark : md5 b ∈
            (download_image_task md5 x.1 x.2 dir i tid st).1.db.processed_images := by
          rw [hf] at hsucc ⊢
          exact download_image_task_success_marks md5 b ct x.2 dir i tid st hsucc
        rw [countPersisted_zero md5 b xs dir tid (i + 1) _ hmark]
      · rw [if_neg hhead]
        simpa using ih (i + 1) _

theorem download_image_task_nonempty_outcome (md5 : List Nat → String)
    (b : List Nat) (ct : String) (resp : TagResp) (dir : String) (i : Nat)
    (tid : String) (st : St) (hb : b ≠ []) :
    (((download_image_task md5 (.success b ct) resp dir i tid st).2).isSuccess ||
      ((download_image_task md5 (.success b ct) resp dir i tid
        st).2).isSkipped) = true := by
  by_cases hproc : is_image_processed (md5 b) st.db.processed_images = true
  · rw [download_image_task_skip md5 b ct resp dir i tid st hproc]
    simp [Outcome.isSkipped]
  · have hlen : b.length > 0 := List.length_pos.2 hb
    simp only [download_image_task, hproc, if_false, hlen, if_true]
    simp [Outcome.isSuccess]

theorem runDownloads_nonempty_content_outcomes (md5 : List Nat → String)
    (b : List Nat) (hb : b ≠ []) (inputs : List (Fetch × TagResp))
    (dir tid : String) (i : Nat) (st : St) :
    ∀ x ∈ inputs.zip (runDownloads md5 inputs dir tid i st).2,
      ∀ ct, x.1.1 = .success b ct →
        (x.2.isSuccess || x.2.isSkipped) = true := by
  induction inputs generalizing i st with
  | nil =>
      intro x hx
      simp [runDownloads] at hx
  | cons y ys ih =>
      intro x hx ct hct
      rw [runDownloads_cons, List.zip_cons_cons] at hx
      rcases List.mem_cons.1 hx with h | h
      · subst h
        simp only at hct
        rw [hct]
        exact download_image_task_nonempty_outcome md5 b ct y.2 dir i tid st hb
      · exact ih (i + 1) _ x h ct hct

/-- Claim C1: if the content hash of the fetched bytes is already in the
processed-image index when a download runs, that download returns outcome
`skipped` and leaves the entire state (filesystem, tag table, hash index)
untouched; consequently at most one download of any byte content is
persisted within a batch — and across two successive batches — and for
non-empty content every byte-identical download is either the single
success or reported `skipped`. -/
theorem claim_C1_duplicate_suppression (md5 : List Nat → String)
    (content : List Nat) (ct : String) (resp : TagResp) (dir tid : String)
    (idx : Nat) (stA : St) (inputs inputs2 : List (Fetch × TagResp))
    (dir2 tid2 : String) (i i2 : Nat) (st : St) (b : List Nat)
    (hproc : is_image_processed (md5 content) stA.db.processed_images = true) :
    download_image_task md5 (.success content ct) resp dir idx tid stA =
      (stA, .skipped "Duplicate image (already processed)") ∧
    countPersisted b inputs (runDownloads md5 inputs dir tid i st).2 ≤ 1 ∧
    countPersisted b inputs (runDownloads md5 inputs dir tid i st).2 +
      countPersisted b inputs2 (runDownloads md5 inputs2 dir2 tid2 i2
        (runDownloads md5 inputs dir tid i st).1).2 ≤ 1 ∧
    (b ≠ [] → ∀ x ∈ inputs.zip (runDownloads md5 inputs dir tid i st).2,
      ∀ ct', x.1.1 = .success b ct' →
        (x.2.isSuccess || x.2.isSkipped) = true) := by
  refine ⟨download_image_task_skip md5 content ct resp dir idx tid stA hproc,
    countPersisted_le_one md5 b inputs dir tid i st, ?_, ?_⟩
  · by_cases hpos : 0 < countPersisted b inputs
        (runDownloads md5 inputs dir tid i st).2
    · have hmark := countPersisted_pos_marks md5 b inputs dir tid i st hpos
      have hz := countPersisted_zero md5 b inputs2 dir2 tid2 i2 _ hmark
      rw [hz]
      have hle := countPersisted_le_one md5 b inputs dir tid i st
      omega
    · have h0 : countPersisted b inputs
          (runDownloads md5 inputs dir tid i st).2 = 0 := by omega
      rw [h0]
      simpa using countPersisted_le_one md5 b inputs2 dir2 tid2 i2 _
  · intro hb
    exact runDownloads_nonempty_content_outcomes md5 b hb inputs dir tid i st

/-- Closed witness for claim C1: with hash "H" already in the index, the
download is skipped and the state unchanged; a batch fetching identical
bytes twice persists at most one copy, also counting a following batch. -/
theorem claim_C1_duplicate_suppression_witness :
    download_image_task (fun _ => "H") (.success [1] "x") .disabled "u/9" 1 "9"
        ⟨⟨[], ["H"]⟩, []⟩ =
      (⟨⟨[], ["H"]⟩, []⟩, .skipped "Duplicate image (already processed)") ∧
    countPersisted [1] [(.success [1] "x", .disabled), (.success [1] "x", .disabled)]
      (runDownloads (fun _ => "H")
        [(.success [1] "x", .disabled), (.success [1] "x", .disabled)]
        "u/9" "9" 1 ⟨⟨[], []⟩, []⟩).2 ≤ 1 ∧
    countPersisted [1] [(.success [1] "x", .disabled), (.success [1] "x", .disabled)]
      (runDownloads (fun _ => "H")
        [(.success [1] "x", .disabled), (.success [1] "x", .disabled)]
        "u/9" "9" 1 ⟨⟨[], []⟩, []⟩).2 +
      countPersisted [1] [(.success [1] "x", .disabled)]
        (runDownloads (fun _ => "H") [(.success [1] "x", .disabled)] "u/8" "8" 1
          (runDownloads (fun _ => "H")
            [(.success [1] "x", .disabled), (.success [1] "x", .disabled)]
            "u/9" "9" 1 ⟨⟨[], []⟩, []⟩).1).2 ≤ 1 ∧
    (([1] : List Nat) ≠ [] → ∀ x ∈
      ([(.success [1] "x", .disabled), (.success [1] "x", .disabled)] :
        List (Fetch × TagResp)).zip
        (runDownloads (fun _ => "H")
          [(.success [1] "x", .disabled), (.success [1] "x", .disabled)]
          "u/9" "9" 1 ⟨⟨[], []⟩, []⟩).2,
      ∀ ct', x.1.1 = .success [1] ct' →
        (x.2.isSuccess || x.2.isSkipped) = true) :=
  claim_C1_duplicate_suppression (fun _ => "H") [1] "x" .disabled "u/9" "9" 1
    ⟨⟨[], ["H"]⟩, []⟩
    [(.success [1] "x", .disabled), (.success [1] "x", .disabled)]
    [(.success [1] "x", .disabled)] "u/8" "8" 1 1 ⟨⟨[], []⟩, []⟩ [1] (by rfl)

/-! ## Helper lemmas: the getTags map -/

theorem lookup_cons_pair {β : Type} (p k : String) (v : β)
    (rest : List (String × β)) :
    List.lookup p ((k, v) :: rest) =
      if p = k then some v else List.lookup p rest := by
  by_cases h : p = k
  · subst h
    simp [List.lookup]
  · have hb : (p == k) = false := by simp [h]
    simp [List.lookup, hb, h]

theorem lookup_append_some {β : Type} {p : String}
    {m1 : List (String × β)} {v : β} (m2 : List (String × β))
    (h : List.lookup p m1 = some v) :
    List.lookup p (m1 ++ m2) = some v := by
  induction m1 with
  | nil => simp [List.lookup] at h
  | cons kv m ih =>
      obtain ⟨k, w⟩ := kv
      rw [lookup_cons_pair] at h
      rw [List.cons_append, lookup_cons_pair]
      by_cases hp : p = k
      · rw [if_pos hp] at h ⊢
        exact h
      · rw [if_neg hp] at h ⊢
        exact ih h

theorem lookup_append_none {β : Type} {p : String}
    {m1 : List (String × β)} (m2 : List (String × β))
    (h : List.lookup p m1 = none) :
    List.lookup p (m1 ++ m2) = List.lookup p m2 := by
  induction m1 with
  | nil => rfl
  | cons kv m ih =>
      obtain ⟨k, w⟩ := kv
      rw [lookup_cons_pair] at h
      rw [List.cons_append, lookup_cons_pair]
      by_cases hp : p = k
      · rw [if_pos hp] at h
        cases h
      · rw [if_neg hp] at h ⊢
        exact ih h

theorem lookup_isSome_of_key {β : Type} (m : List (String × β)) (q : String)
    (kv : String × β) (hkv : kv ∈ m) (hk : kv.1 = q) :
    ∃ v, List.lookup q m = some v := by
  induction m with
  | nil => cases hkv
  | cons a m ih =>
      obtain ⟨k, w⟩ := a
      rw [lookup_cons_pair]
      rcases List.mem_cons.1 hkv with h | h
      · have hkq : q = k := by rw [← hk, h]
        rw [if_pos hkq]
        exact ⟨w, rfl⟩
      · by_cases hq : q = k
        · rw [if_pos hq]
          exact ⟨w, rfl⟩
        · rw [if_neg hq]
          exact ih h

theorem lookup_appendRowToMap (m : List (String × List (String × Option ℚ)))
    (r : TagRow) (p : String) :
    List.lookup p (appendRowToMap m r) =
      (List.lookup p m).map (fun v =>
        if p = r.filepath then v ++ [(r.tag, r.confidence)] else v) := by
  induction m with
  | nil => simp [appendRowToMap]
  | cons kv m ih =>
      obtain ⟨k, v⟩ := kv
      simp only [appendRowToMap, List.map_cons] at ih ⊢
      by_cases hk : k = r.filepath
      · have hkb : (k == r.filepath) = true := by simp [hk]
        simp only [hkb, if_true]
        rw [lookup_cons_pair, lookup_cons_pair]
        by_cases hp : p = k
        · have hpr : p = r.filepath := hp.trans hk
          rw [if_pos hp, if_pos hp]
          simp [hpr]
        · rw [if_neg hp, if_neg hp]
          exact ih
      · have hkb : (k == r.filepath) = false := by simp [hk]
        simp only [hkb, Bool.false_eq_true, if_false]
        rw [lookup_cons_pair, lookup_cons_pair]
        by_cases hp : p = k
        · have hpr : ¬ p = r.filepath := by
            rw [hp]
            exact hk
          rw [if_pos hp, if_pos hp]
          simp [hpr]
        · rw [if_neg hp, if_neg hp]
          exact ih

theorem lookup_foldl_appendRow (rs : List TagRow)
    (m : List (String × List (String × Option ℚ))) (p : String) :
    List.lookup p (rs.foldl appendRowToMap m) =
      (List.lookup p m).map (fun v =>
        v ++ (rs.filter (fun r => r.filepath == p)).map
          (fun r => (r.tag, r.confidence))) := by
  induction rs generalizing m with
  | nil =>
      simp only [List.foldl_nil, List.filter_nil, List.map_nil, List.append_nil]
      cases List.lookup p m <;> simp
  | cons r rs ih =>
      simp only [List.foldl_cons]
      rw [ih, lookup_appendRowToMap, Option.map_map]
      by_cases hr : r.filepath = p
      · have hrb : (r.filepath == p) = true := by simp [hr]
        have hp : p = r.filepath := hr.symm
        simp only [List.filter_cons, hrb, if_true, List.map_cons]
        cases List.lookup p m <;>
          simp [Function.comp, hp, List.append_assoc]
      · have hrb : (r.filepath == p) = false := by simp [hr]
        have hp : ¬ p = r.filepath := fun h => hr h.symm
        simp only [List.filter_cons, hrb, Bool.false_eq_true, if_false]
        cases List.lookup p m <;> simp [Function.comp, hp]

theorem lookup_emptyFold_preserve (fps : List String)
    (m : List (String × List (String × Option ℚ))) (p : String)
    (h : List.lookup p m = some []) :
    List.lookup p (fps.foldl (fun m q =>
      if m.any (·.1 == q) then m else m ++ [(q, [])]) m) = some [] := by
  induction fps generalizing m with
  | nil => exact h
  | cons q fps ih =>
      simp only [List.foldl_cons]
      by_cases hg : (m.any (·.1 == q)) = true
      · rw [if_pos hg]
        exact ih _ h
      · rw [if_neg hg]
        exact ih _ (lookup_append_some _ h)

theorem lookup_emptyFold_create (fps : List String)
    (m : List (String × List (String × Option ℚ))) (p : String)
    (hp : p ∈ fps) (h : List.lookup p m = none) :
    List.lookup p (fps.foldl (fun m q =>
      if m.any (·.1 == q) then m else m ++ [(q, [])]) m) = some [] := by
  induction fps generalizing m with
  | nil => cases hp
  | cons q fps ih =>
      simp only [List.foldl_cons]
      by_cases hq : q = p
      · subst hq
        by_cases hg : (m.any (·.1 == q)) = true
        · exfalso
          rw [List.any_eq_true] at hg
          obtain ⟨kv, hkv, hbeq⟩ := hg
          obtain ⟨v, hv⟩ := lookup_isSome_of_key m q kv hkv (by simpa using hbeq)
          rw [h] at hv
          cases hv
        · rw [if_neg hg]
          apply lookup_emptyFold_preserve
          rw [lookup_append_none _ h, lookup_cons_pair, if_pos rfl]
      · have hp' : p ∈ fps := by
          rcases List.mem_cons.1 hp with h' | h'
          · exact absurd h'.symm hq
          · exact h'
        by_cases hg : (m.any (·.1 == q)) = true
        · rw [if_pos hg]
          exact ih _ hp' h
        · rw [if_neg hg]
          apply ih _ hp'
          rw [lookup_append_none _ h, lookup_cons_pair,
            if_neg (fun hh => hq hh.symm)]
          rfl

theorem lookup_emptyTagsMap (fps : List String) (p : String)
    (hp : p ∈ fps) : List.lookup p (emptyTagsMap fps) = some [] :=
  lookup_emptyFold_create fps [] p hp rfl

theorem optConfLe_trans : ∀ a b c : Option ℚ,
    optConfLe a b = true → optConfLe b c = true → optConfLe a c = true := by
  intro a b c hab hbc
  match a, b, c with
  | none, _, _ => rfl
  | some x, none, _ => simp [optConfLe] at hab
  | some x, some y, none => simp [optConfLe] at hbc
  | some x, some y, some z =>
      simp only [optConfLe, decide_eq_true_eq] at *
      exact le_trans hab hbc

theorem optConfLe_total : ∀ a b : Option ℚ,
    (optConfLe a b || optConfLe b a) = true := by
  intro a b
  match a, b with
  | none, _ => simp [optConfLe]
  | some x, none => simp [optConfLe]
  | some x, some y =>
      simp only [optConfLe, Bool.or_eq_true, decide_eq_true_eq]
      exact le_total x y

theorem confDescBefore_trans (a b c : TagRow)
    (h1 : confDescBefore a b = true) (h2 : confDescBefore b c = true) :
    confDescBefore a c = true :=
  optConfLe_trans c.confidence b.confidence a.confidence h2 h1

theorem confDescBefore_total (a b : TagRow) :
    (confDescBefore a b || confDescBefore b a) = true :=
  optConfLe_total b.confidence a.confidence

theorem sortedTagRows_sorted (rows : List TagRow) (fps : List String) :
    (sortedTagRows rows fps).Pairwise
      (fun a b => confDescBefore a b = true) :=
  List.sorted_mergeSort
    (fun a b c h1 h2 => confDescBefore_trans a b c h1 h2)
    (fun a b => confDescBefore_total a b) _

theorem mem_sortedTagRows {rows : List TagRow} {fps : List String}
    {r : TagRow} (h : r ∈ sortedTagRows rows fps) : r ∈ rows := by
  unfold sortedTagRows at h
  rw [List.mem_mergeSort] at h
  exact (List.mem_filter.1 h).1

/-- Claim C6: `get_tags_for_files` answers every requested filepath — a
path with no tags maps to `some []`, never absent — and each returned tag
list is ordered by descending confidence. -/
theorem claim_C6_getTags_total_and_sorted (filepaths : List String)
    (rows : List TagRow) (p : String) (hp : p ∈ filepaths) :
    ∃ l, List.lookup p (get_tags_for_files filepaths rows) = some l ∧
      l.Pairwise (fun a b => optConfLe b.2 a.2 = true) ∧
      ((∀ r ∈ rows, r.filepath ≠ p) → l = []) := by
  have hne : filepaths.isEmpty = false := by
    simp [List.isEmpty_iff]
    exact List.ne_nil_of_mem hp
  unfold get_tags_for_files
  rw [if_neg (by simp [hne])]
  rw [lookup_foldl_appendRow, lookup_emptyTagsMap filepaths p hp]
  simp only [Option.map_some', List.nil_append]
  refine ⟨_, rfl, ?_, ?_⟩
  · rw [List.pairwise_map]
    exact ((sortedTagRows_sorted rows filepaths).sublist
      (List.filter_sublist _))
  · intro hno
    have hfil : (sortedTagRows rows filepaths).filter
        (fun r => r.filepath == p) = [] := by
      apply List.filter_eq_nil_iff.2
      intro r hr hbeq
      exact hno r (mem_sortedTagRows hr) (by simpa using hbeq)
    rw [hfil]
    rfl

/-- Closed witness for claim C6: both requested paths get an entry, also
the path with no rows at all. -/
theorem claim_C6_getTags_total_and_sorted_witness :
    (∃ l, List.lookup "p" (get_tags_for_files ["p", "q"]
        [⟨"p", "t1", some (1/2)⟩, ⟨"p", "t2", some (9/10)⟩]) = some l ∧
      l.Pairwise (fun a b => optConfLe b.2 a.2 = true) ∧
      ((∀ r ∈ [(⟨"p", "t1", some (1/2)⟩ : TagRow),
        ⟨"p", "t2", some (9/10)⟩], r.filepath ≠ "p") → l = [])) ∧
    (∃ l, List.lookup "q" (get_tags_for_files ["p", "q"]
        [⟨"p", "t1", some (1/2)⟩, ⟨"p", "t2", some (9/10)⟩]) = some l ∧
      l.Pairwise (fun a b => optConfLe b.2 a.2 = true) ∧
      ((∀ r ∈ [(⟨"p", "t1", some (1/2)⟩ : TagRow),
        ⟨"p", "t2", some (9/10)⟩], r.filepath ≠ "q") → l = [])) :=
  ⟨claim_C6_getTags_total_and_sorted ["p", "q"]
      [⟨"p", "t1", some (1/2)⟩, ⟨"p", "t2", some (9/10)⟩] "p" (by simp),
    claim_C6_getTags_total_and_sorted ["p", "q"]
      [⟨"p", "t1", some (1/2)⟩, ⟨"p", "t2", some (9/10)⟩] "q" (by simp)⟩
